import Mathlib

/-!
Verification development for the inout-deshadowing optimization pass
(`lib/SILPasses/InOutDeshadowing.cpp`).

The pass operates on a function-level IR.  We embed the small instruction
subset the pass touches — stack allocations (two results: slot 0 is the
lifecycle handle, slot 1 the address), memory copies carrying a source
location, the mark-uninitialized wrapper, and a generic memory operation —
and the pass's own functions `promoteShadow`, `isCopyToOrFromStack`,
`processInOutValue`, `performInOutDeshadowing` and the transform-unit
entry point `runOnFunction`, as executable Lean functions over a function
body represented as a list of instructions.  Use lists are derived from
the body in instruction order (then operand order); in-place mutation
becomes explicit body-to-body transformation.
-/

/-- Source-location provenance carried by a copy_addr instruction: whether
the location is flagged auto-generated, and whether it is a file-level
(SILFileLocation) synthesized location. -/
structure SILLoc where
  isAutoGenerated : Bool
  isSILFileLocation : Bool
deriving DecidableEq, Repr

/-- The instruction kinds the pass inspects.  `allocStack` produces two
results (slot 0: lifecycle handle, slot 1: address); `copyAddr` carries its
provenance location and has operands src (index 0) and dest (index 1);
`markUninitialized` wraps one storage operand; every other instruction the
pass can meet (dealloc_stack, loads, stores, ...) is `otherMemOp` — the
pass never discriminates further than this. -/
inductive InstKind where
  | allocStack : InstKind
  | copyAddr : SILLoc → InstKind
  | markUninitialized : InstKind
  | otherMemOp : InstKind
deriving DecidableEq, Repr

/-- A SIL value: entry-block argument number `n`, or result number `r` of
the instruction whose id is `i`. -/
inductive SILValue where
  | arg : Nat → SILValue
  | result : Nat → Nat → SILValue
deriving DecidableEq, Repr

/-- An instruction: an identity (used by result values to name their
producer), a kind, and its operand list.  A use is a pair of an
instruction and an operand index. -/
structure Instr where
  id : Nat
  kind : InstKind
  operands : List SILValue
deriving DecidableEq, Repr

/-- A function body: the instructions of the function in program order. -/
abbrev Body := List Instr

/-- getSrc of a copy_addr: operand 0. -/
def copySrc (I : Instr) : Option SILValue := I.operands[0]?

/-- getDest of a copy_addr: operand 1. -/
def copyDest (I : Instr) : Option SILValue := I.operands[1]?

/-- Does this value denote a result of the allocation `allocId`? -/
def isAllocResult (allocId : Nat) : SILValue → Bool
  | SILValue.result j _ => j == allocId
  | SILValue.arg _ => false

/-- Number of operands in `ops` that reference a result of `allocId`. -/
def countAllocOps (allocId : Nat) : List SILValue → Nat
  | [] => 0
  | v :: vs => (if isAllocResult allocId v then 1 else 0) + countAllocOps allocId vs

/-- Total number of uses of the allocation `allocId` in the body: the
size of `Alloc`'s use list. -/
def countAllocUses (allocId : Nat) : Body → Nat
  | [] => 0
  | I :: rest => countAllocOps allocId I.operands + countAllocUses allocId rest

/-- Index of the first operand referencing a result of `allocId`. -/
def firstOpIdx (allocId : Nat) : List SILValue → Option Nat
  | [] => none
  | v :: vs => if isAllocResult allocId v then some 0 else (firstOpIdx allocId vs).map (· + 1)

/-- The first remaining use of the allocation, as a (body index, operand
index) pair — the embedding of `*Alloc->use_begin()`. -/
def firstAllocUse (allocId : Nat) : Body → Option (Nat × Nat)
  | [] => none
  | I :: rest =>
    match firstOpIdx allocId I.operands with
    | some oi => some (0, oi)
    | none => (firstAllocUse allocId rest).map (fun p => (p.1 + 1, p.2))

/-- Rewrite one operand of an instruction in place (`Use->set`). -/
def setOp (I : Instr) (oi : Nat) (v : SILValue) : Instr :=
  { I with operands := I.operands.set oi v }

/-- One iteration of `promoteShadow`'s while-loop, acting on the use at
(body index `bi`, operand index `oi`): erase the user when the use is of
result 0, erase the user when it is a copy_addr whose src or dest is the
inout argument, and otherwise redirect the use to the argument. -/
def promoteStep (allocId argIdx : Nat) (b : Body) (bi oi : Nat) : Body :=
  match b[bi]? with
  | none => b
  | some I =>
    if I.operands[oi]? = some (SILValue.result allocId 0) then b.eraseIdx bi
    else
      match I.kind with
      | InstKind.copyAddr _ =>
          if copySrc I = some (SILValue.arg argIdx) ∨ copyDest I = some (SILValue.arg argIdx) then
            b.eraseIdx bi
          else b.set bi (setOp I oi (SILValue.arg argIdx))
      | _ => b.set bi (setOp I oi (SILValue.arg argIdx))

/-- The promoter's while-loop (`while (!Alloc->use_empty())`), written with
an explicit iteration budget.  `promoteLoopF_terminates` proves that a
budget of `countAllocUses allocId b` iterations always reaches the loop's
exit condition (no use of the allocation remains), so `promoteShadow`
below runs the loop with exactly that budget. -/
def promoteLoopF (allocId argIdx : Nat) : Nat → Body → Body
  | 0, b => b
  | fuel + 1, b =>
    match firstAllocUse allocId b with
    | none => b
    | some (bi, oi) => promoteLoopF allocId argIdx fuel (promoteStep allocId argIdx b bi oi)

/-- Erase the instruction with identity `j` (`Alloc->eraseFromParent()`). -/
def eraseById (b : Body) (j : Nat) : Body := b.filter (fun I => I.id != j)

/-- promoteShadow - given an alloc_stack that is copied to/from an inout
argument, completely replace the alloc_stack with that inout argument:
process every use of the allocation, then erase the allocation itself. -/
def promoteShadow (b : Body) (allocId argIdx : Nat) : Body :=
  eraseById (promoteLoopF allocId argIdx (countAllocUses allocId b) b) allocId

/-- Look up an instruction by identity (resolve a result value to its
defining instruction). -/
def findInst (b : Body) (j : Nat) : Option Instr := b.find? (fun I => I.id == j)

/-- Is `j` the identity of an alloc_stack instruction of the body? -/
def isAllocStackIn (b : Body) (j : Nat) : Bool :=
  match findInst b j with
  | some I =>
      match I.kind with
      | InstKind.allocStack => true
      | _ => false
  | none => false

/-- Look through mark_uninitialized: when the value is the result of a
mark_uninitialized instruction, unwrap one layer to its operand. -/
def lookThroughMUI (b : Body) (v : SILValue) : SILValue :=
  match v with
  | SILValue.result j _ =>
      match findInst b j with
      | some I =>
          match I.kind with
          | InstKind.markUninitialized => (I.operands[0]?).getD v
          | _ => v
      | none => v
  | SILValue.arg _ => v

/-- Modelled from the spec: the value-to-instruction cast
(`dyn_cast<AllocStackInst>` applied to a `SILValue`) lives in the IR
support headers, which are not part of the source under scrutiny; the
spec's data model fixes that a match requires exactly the allocation's
address result, which is result slot 1 (slot 0 being the lifecycle
handle).  Returns the alloc_stack identity on a match. -/
def asAllocStackAddr (b : Body) (v : SILValue) : Option Nat :=
  match v with
  | SILValue.result j 1 => if isAllocStackIn b j then some j else none
  | _ => none

/-- The operand of the copy that is not the one holding the argument:
dest when the use is operand number 0 (the src), src otherwise. -/
def otherOperand (I : Instr) (oi : Nat) : Option SILValue :=
  if oi == 0 then copyDest I else copySrc I

/-- isCopyToOrFromStack - check whether the given use (user `I`, operand
number `oi`) of an inout argument is a copy_addr to/from an alloc_stack;
only autogenerated or file-located copy_addrs are considered.  Returns the
alloc_stack identity if found, or none if not.  Pure query: the body is
only read. -/
def isCopyToOrFromStack (b : Body) (I : Instr) (oi : Nat) : Option Nat :=
  match I.kind with
  | InstKind.copyAddr loc =>
      if !loc.isAutoGenerated && !loc.isSILFileLocation then none
      else
        match otherOperand I oi with
        | none => none
        | some w => asAllocStackAddr b (lookThroughMUI b w)
  | _ => none

/-- Operand indices at which `ops` references argument `argIdx`. -/
def argOpIdxs (argIdx : Nat) : List SILValue → List Nat
  | [] => []
  | v :: vs =>
      if v = SILValue.arg argIdx then 0 :: (argOpIdxs argIdx vs).map (· + 1)
      else (argOpIdxs argIdx vs).map (· + 1)

/-- The use list of the inout argument `argIdx`, in body order. -/
def argUses (argIdx : Nat) : Body → List (Instr × Nat)
  | [] => []
  | I :: rest => (argOpIdxs argIdx I.operands).map (fun k => (I, k)) ++ argUses argIdx rest

/-- First use of the argument recognized by `isCopyToOrFromStack`, with
the alloc_stack it returns. -/
def findShadow (b : Body) (argIdx : Nat) : Option Nat :=
  (argUses argIdx b).findSome? (fun u => isCopyToOrFromStack b u.1 u.2)

/-- processInOutValue - walk the use list of the inout argument; on the
first use recognized as a copy to/from an alloc_stack, promote that
allocation and report true; otherwise report false and leave the body
untouched. -/
def processInOutValue (b : Body) (argIdx : Nat) : Bool × Body :=
  match findShadow b argIdx with
  | some a => (true, promoteShadow b a argIdx)
  | none => (false, b)

/-- The per-function driver loop shared verbatim by the module driver and
the transform-unit entry point: walk the interface parameters (a Bool per
parameter: is its convention indirect inout), skip the non-inout ones, run
`processInOutValue` on the entry block argument of each inout one, and
count (removed, kept). -/
def processParams (b : Body) (params : List Bool) (argIdx : Nat) : Body × Nat × Nat :=
  match params with
  | [] => (b, 0, 0)
  | p :: rest =>
      if p then
        let pr := processInOutValue b argIdx
        let res := processParams pr.2 rest (argIdx + 1)
        if pr.1 then (res.1, res.2.1 + 1, res.2.2) else (res.1, res.2.1, res.2.2 + 1)
      else processParams b rest (argIdx + 1)

/-- A function: its entry-block instruction list when it has a body
(`none` for a body-less declaration, `Fn.empty()` in the source), and the
inout flag of each interface parameter. -/
structure SILFunction where
  body : Option Body
  params : List Bool
deriving DecidableEq, Repr

/-- One function's processing inside `performInOutDeshadowing`: a function
with no body is skipped (`if (Fn.empty()) continue`); otherwise the
parameter loop runs and the two counter deltas are produced. -/
def performInOutDeshadowingFn (f : SILFunction) : SILFunction × Nat × Nat :=
  match f.body with
  | none => (f, 0, 0)
  | some b =>
      let r := processParams b f.params 0
      ({ f with body := some r.1 }, r.2.1, r.2.2)

/-- performInOutDeshadowing - the module-wide batch driver: process every
function of the module, accumulating the NumShadowsRemoved and
NumShadowsKept counters. -/
def performInOutDeshadowing : List SILFunction → List SILFunction × Nat × Nat
  | [] => ([], 0, 0)
  | f :: fs =>
      let r := performInOutDeshadowingFn f
      let rest := performInOutDeshadowing fs
      (r.1 :: rest.1, r.2.1 + rest.2.1, r.2.2 + rest.2.2)

/-- The transform-unit entry point `InOutDeshadowing::runOnFunction`.  It
dereferences the entry block (`F.front()`) without first checking
`F.empty()`; on a body-less declaration that access has no defined
result, modelled here as `none`.  On a function with a body it runs the
same parameter loop as the module driver. -/
def runOnFunction (f : SILFunction) : Option (SILFunction × Nat × Nat) :=
  match f.body with
  | none => none
  | some b =>
      let r := processParams b f.params 0
      some ({ f with body := some r.1 }, r.2.1, r.2.2)

/-- Does the instruction use the allocation (via either result)? -/
def usesAlloc (allocId : Nat) (I : Instr) : Bool := I.operands.any (isAllocResult allocId)

/-- Redirect a value: results of the allocation become the argument. -/
def redirectVal (allocId argIdx : Nat) (v : SILValue) : SILValue :=
  if isAllocResult allocId v then SILValue.arg argIdx else v

/-- The instruction with every use of the allocation redirected to the
inout argument and nothing else changed. -/
def redirectOps (allocId argIdx : Nat) (I : Instr) : Instr :=
  { I with operands := I.operands.map (redirectVal allocId argIdx) }

/-- Does the instruction use result slot 0 (the lifecycle handle)? -/
def hasResult0Use (allocId : Nat) (I : Instr) : Bool :=
  I.operands.any (fun v => decide (v = SILValue.result allocId 0))

/-- The instructions the promoter ends up erasing: users of the lifecycle
result, copy_addrs whose src or dest is the inout argument, and copy_addrs
both of whose operands come from the allocation (their first operand is
redirected to the argument, after which the src-or-dest-is-argument test
fires and erases them). -/
def eraseCond (allocId argIdx : Nat) (I : Instr) : Bool :=
  hasResult0Use allocId I ||
    (match I.kind with
     | InstKind.copyAddr _ =>
         decide (copySrc I = some (SILValue.arg argIdx)) ||
         decide (copyDest I = some (SILValue.arg argIdx)) ||
         ((copySrc I).any (isAllocResult allocId) && (copyDest I).any (isAllocResult allocId))
     | _ => false)

/-- Predicted fate of one instruction under the promoter's loop: untouched
when it does not use the allocation, erased when `eraseCond` holds, and
otherwise kept with its allocation uses redirected to the argument.  A
specification device: `promoteLoopF_eq_filterMap` proves the loop realizes
exactly this fate pointwise. -/
def fate (allocId argIdx : Nat) (I : Instr) : Option Instr :=
  if usesAlloc allocId I then
    (if eraseCond allocId argIdx I then none else some (redirectOps allocId argIdx I))
  else some I

/-- Structural well-formedness used by the promoter theorems: every
copy_addr has exactly its two operands (src, dest). -/
def copyArity (b : Body) : Bool :=
  b.all (fun I =>
    match I.kind with
    | InstKind.copyAddr _ => I.operands.length == 2
    | _ => true)

/-- The sequence of per-parameter outcomes (true = shadow promoted) of one
driver run, in processing order; the specification's `m` is the number of
`true` entries.  Follows the driver's own recursion so that the counter
theorem can compare the counters against it. -/
def promotionOutcomes (b : Body) (params : List Bool) (argIdx : Nat) : List Bool :=
  match params with
  | [] => []
  | p :: rest =>
      if p then
        let pr := processInOutValue b argIdx
        pr.1 :: promotionOutcomes pr.2 rest (argIdx + 1)
      else promotionOutcomes b rest (argIdx + 1)

/-- Does the instruction pass the recognizer's provenance gate: is it a
copy_addr whose location is autogenerated or file-level synthesized? -/
def gatePasses (I : Instr) : Bool :=
  match I.kind with
  | InstKind.copyAddr loc => loc.isAutoGenerated || loc.isSILFileLocation
  | _ => false

/-- An autogenerated source location. -/
def autoLoc : SILLoc := { isAutoGenerated := true, isSILFileLocation := false }

/-- A location that is neither autogenerated nor file-level: explicit user
syntax. -/
def userLoc : SILLoc := { isAutoGenerated := false, isSILFileLocation := false }

/-- A file-level synthesized location that is not flagged autogenerated. -/
def fileLoc : SILLoc := { isAutoGenerated := false, isSILFileLocation := true }

/-- Scenario D of the specification: shadow allocation (id 0), autogenerated
copy-in from argument 0 (id 1), an unrelated memory operation reading the
shadow (id 2), autogenerated copy-out (id 3), stack deallocation using the
lifecycle result (id 4). -/
def shadowBodyD : Body :=
  [ ⟨0, InstKind.allocStack, []⟩,
    ⟨1, InstKind.copyAddr autoLoc, [SILValue.arg 0, SILValue.result 0 1]⟩,
    ⟨2, InstKind.otherMemOp, [SILValue.result 0 1]⟩,
    ⟨3, InstKind.copyAddr autoLoc, [SILValue.result 0 1, SILValue.arg 0]⟩,
    ⟨4, InstKind.otherMemOp, [SILValue.result 0 0]⟩ ]

/-- The unrelated memory operation of `shadowBodyD`. -/
def shadowDLoad : Instr := ⟨2, InstKind.otherMemOp, [SILValue.result 0 1]⟩

/-- A shadow allocation together with an autogenerated copy_addr both of
whose operands are the shadow's address. -/
def allocAllocBody : Body :=
  [ ⟨0, InstKind.allocStack, []⟩,
    ⟨1, InstKind.copyAddr autoLoc, [SILValue.result 0 1, SILValue.result 0 1]⟩ ]

/-- A function whose only inout parameter has a shadow copy whose location
is file-level synthesized but not flagged autogenerated. -/
def fileLocFn : SILFunction :=
  { body := some [ ⟨0, InstKind.allocStack, []⟩,
                   ⟨1, InstKind.copyAddr fileLoc, [SILValue.arg 0, SILValue.result 0 1]⟩ ],
    params := [true] }

/-- Scenario B of the specification: a user-written (neither autogenerated
nor file-located) copy of the argument into a local allocation. -/
def userCopyBody : Body :=
  [ ⟨0, InstKind.allocStack, []⟩,
    ⟨1, InstKind.copyAddr userLoc, [SILValue.arg 0, SILValue.result 0 1]⟩ ]

/-- Scenario C of the specification: the copy-in side goes through a
mark_uninitialized wrapper (id 5) of the shadow. -/
def muiBody : Body :=
  [ ⟨0, InstKind.allocStack, []⟩,
    ⟨5, InstKind.markUninitialized, [SILValue.result 0 1]⟩,
    ⟨1, InstKind.copyAddr autoLoc, [SILValue.arg 0, SILValue.result 5 0]⟩ ]

/-- The copy instruction of `muiBody`. -/
def muiCopy : Instr := ⟨1, InstKind.copyAddr autoLoc, [SILValue.arg 0, SILValue.result 5 0]⟩

/-- A function whose single inout parameter has two distinct shadow
allocations, each with its own autogenerated copy from the argument. -/
def twoShadowFn : SILFunction :=
  { body := some [ ⟨0, InstKind.allocStack, []⟩,
                   ⟨1, InstKind.allocStack, []⟩,
                   ⟨2, InstKind.copyAddr autoLoc, [SILValue.arg 0, SILValue.result 0 1]⟩,
                   ⟨3, InstKind.copyAddr autoLoc, [SILValue.arg 0, SILValue.result 1 1]⟩ ],
    params := [true] }

/-- A declaration: a function with an inout parameter but no body. -/
def declOnlyFn : SILFunction := { body := none, params := [true] }

/-- A function holding Scenario D as its body, with one inout parameter. -/
def shadowFnD : SILFunction := { body := some shadowBodyD, params := [true] }

/-- A shadow with an autogenerated copy-in and a user-written (not
autogenerated, not file-located) copy-out connecting it to the argument. -/
def mixedProvenanceBody : Body :=
  [ ⟨0, InstKind.allocStack, []⟩,
    ⟨1, InstKind.copyAddr autoLoc, [SILValue.arg 0, SILValue.result 0 1]⟩,
    ⟨2, InstKind.copyAddr userLoc, [SILValue.result 0 1, SILValue.arg 0]⟩ ]

/-- The user-written copy-out of `mixedProvenanceBody`. -/
def mixedUserCopy : Instr :=
  ⟨2, InstKind.copyAddr userLoc, [SILValue.result 0 1, SILValue.arg 0]⟩

/-- Membership from an indexing fact. -/
theorem getElem?_some_mem {α : Type _} {l : List α} {i : Nat} {a : α}
    (h : l[i]? = some a) : a ∈ l := by
  rcases List.getElem?_eq_some.1 h with ⟨hl, he⟩
  exact he ▸ List.getElem_mem hl

/-- A list is unchanged by writing back the element already at a position. -/
theorem set_eq_self_of_getElem? {α : Type _} {l : List α} {i : Nat} {a : α}
    (h : l[i]? = some a) : l.set i a = l := by
  induction l generalizing i with
  | nil => simp at h
  | cons x xs ih =>
      cases i with
      | zero => simp at h; simp [h]
      | succ n => simp at h; simp [ih h]

/-- No operand counts toward the allocation exactly when none is one of its
results. -/
theorem countAllocOps_eq_zero {allocId : Nat} {ops : List SILValue} :
    countAllocOps allocId ops = 0 ↔ ∀ v ∈ ops, isAllocResult allocId v = false := by
  induction ops with
  | nil => simp [countAllocOps]
  | cons v vs ih =>
      cases hv : isAllocResult allocId v
      · simpa [countAllocOps, hv] using ih
      · simp [countAllocOps, hv]

/-- An operand referencing the allocation makes its count positive. -/
theorem countAllocOps_pos {allocId : Nat} {ops : List SILValue} {oi : Nat} {v : SILValue}
    (h : ops[oi]? = some v) (hv : isAllocResult allocId v = true) :
    0 < countAllocOps allocId ops := by
  induction ops generalizing oi with
  | nil => simp at h
  | cons w ws ih =>
      cases oi with
      | zero =>
          simp at h
          subst h
          simp [countAllocOps, hv]
      | succ n =>
          simp at h
          have := ih h
          simp [countAllocOps]
          omega

/-- Writing one operand changes the count by the difference of the two
operands' contributions. -/
theorem countAllocOps_set {allocId : Nat} {ops : List SILValue} {oi : Nat} {v w : SILValue}
    (h : ops[oi]? = some v) :
    countAllocOps allocId (ops.set oi w) + (if isAllocResult allocId v then 1 else 0)
      = countAllocOps allocId ops + (if isAllocResult allocId w then 1 else 0) := by
  induction ops generalizing oi with
  | nil => simp at h
  | cons x xs ih =>
      cases oi with
      | zero =>
          simp at h
          subst h
          simp [countAllocOps]
          omega
      | succ n =>
          simp at h
          have := ih h
          simp [countAllocOps]
          omega

/-- Erasing an instruction removes exactly its own contribution to the
allocation's use count. -/
theorem countAllocUses_eraseIdx {allocId : Nat} {b : Body} {bi : Nat} {I : Instr}
    (h : b[bi]? = some I) :
    countAllocUses allocId (b.eraseIdx bi) + countAllocOps allocId I.operands
      = countAllocUses allocId b := by
  induction b generalizing bi with
  | nil => simp at h
  | cons x xs ih =>
      cases bi with
      | zero =>
          simp at h
          subst h
          simp [List.eraseIdx_cons_zero, countAllocUses]
          omega
      | succ n =>
          simp at h
          have := ih h
          simp [List.eraseIdx_cons_succ, countAllocUses]
          omega

/-- Replacing an instruction replaces exactly its contribution to the
allocation's use count. -/
theorem countAllocUses_set {allocId : Nat} {b : Body} {bi : Nat} {I J : Instr}
    (h : b[bi]? = some I) :
    countAllocUses allocId (b.set bi J) + countAllocOps allocId I.operands
      = countAllocUses allocId b + countAllocOps allocId J.operands := by
  induction b generalizing bi with
  | nil => simp at h
  | cons x xs ih =>
      cases bi with
      | zero =>
          simp at h
          subst h
          simp [countAllocUses]
          omega
      | succ n =>
          simp at h
          have := ih h
          simp [countAllocUses]
          omega

/-- A first-operand search fails exactly on operand lists free of the
allocation's results. -/
theorem firstOpIdx_eq_none {allocId : Nat} {ops : List SILValue} :
    firstOpIdx allocId ops = none ↔ countAllocOps allocId ops = 0 := by
  induction ops with
  | nil => simp [firstOpIdx, countAllocOps]
  | cons v vs ih =>
      cases hv : isAllocResult allocId v
      · simpa [firstOpIdx, hv, countAllocOps] using ih
      · simp [firstOpIdx, hv, countAllocOps]

/-- A successful first-operand search lands on an operand referencing the
allocation. -/
theorem firstOpIdx_eq_some {allocId : Nat} {ops : List SILValue} {oi : Nat}
    (h : firstOpIdx allocId ops = some oi) :
    ∃ v, ops[oi]? = some v ∧ isAllocResult allocId v = true := by
  induction ops generalizing oi with
  | nil => simp [firstOpIdx] at h
  | cons v vs ih =>
      cases hv : isAllocResult allocId v
      · rw [firstOpIdx, hv] at h
        simp only [Bool.false_eq_true, if_false, Option.map_eq_some'] at h
        rcases h with ⟨oi0, h0, rfl⟩
        rcases ih h0 with ⟨w, hw, hw2⟩
        exact ⟨w, by simpa using hw, hw2⟩
      · rw [firstOpIdx, hv] at h
        simp at h
        subst h
        exact ⟨v, by simp, hv⟩

/-- The use scan fails exactly when the allocation has no remaining use. -/
theorem firstAllocUse_eq_none {allocId : Nat} {b : Body} :
    firstAllocUse allocId b = none ↔ countAllocUses allocId b = 0 := by
  induction b with
  | nil => simp [firstAllocUse, countAllocUses]
  | cons I rest ih =>
      rw [firstAllocUse]
      cases hf : firstOpIdx allocId I.operands with
      | none =>
          have h0 := firstOpIdx_eq_none.1 hf
          simp [countAllocUses, h0, ih]
      | some oi =>
          have := firstOpIdx_eq_some hf
          rcases this with ⟨v, hv, hv2⟩
          have := countAllocOps_pos hv hv2
          simp [countAllocUses]
          omega

/-- A successful use scan returns a genuine use of the allocation. -/
theorem firstAllocUse_eq_some {allocId : Nat} {b : Body} {bi oi : Nat}
    (h : firstAllocUse allocId b = some (bi, oi)) :
    ∃ I v, b[bi]? = some I ∧ I.operands[oi]? = some v ∧ isAllocResult allocId v = true := by
  induction b generalizing bi with
  | nil => simp [firstAllocUse] at h
  | cons I rest ih =>
      rw [firstAllocUse] at h
      cases hf : firstOpIdx allocId I.operands with
      | none =>
          rw [hf] at h
          simp only [Option.map_eq_some'] at h
          rcases h with ⟨⟨bi0, oi0⟩, h0, heq⟩
          have hb : bi = bi0 + 1 := by
            have := congrArg Prod.fst heq
            simpa using this.symm
          have ho : oi = oi0 := by
            have := congrArg Prod.snd heq
            simpa using this.symm
          subst hb; subst ho
          rcases ih h0 with ⟨J, w, h1, h2, h3⟩
          exact ⟨J, w, by simpa using h1, h2, h3⟩
      | some oi0 =>
          rw [hf] at h
          simp at h
          rcases h with ⟨hb, ho⟩
          subst hb
          rcases firstOpIdx_eq_some hf with ⟨v, hv, hv2⟩
          exact ⟨I, v, by simp, by simpa [ho] using hv, hv2⟩

/-- The argument value never counts as a result of the allocation. -/
theorem isAllocResult_arg {allocId argIdx : Nat} :
    isAllocResult allocId (SILValue.arg argIdx) = false := rfl

/-- Each loop iteration of the promoter strictly shrinks the allocation's
use list: erasing the user removes at least the processed use, and
redirecting the use to the argument removes exactly it. -/
theorem promoteStep_decrease {allocId argIdx : Nat} {b : Body} {bi oi : Nat}
    (h : firstAllocUse allocId b = some (bi, oi)) :
    countAllocUses allocId (promoteStep allocId argIdx b bi oi)
      < countAllocUses allocId b := by
  rcases firstAllocUse_eq_some h with ⟨I, v, hI, hv, hva⟩
  have hpos := countAllocOps_pos hv hva
  have herase : countAllocUses allocId (b.eraseIdx bi) < countAllocUses allocId b := by
    have := @countAllocUses_eraseIdx allocId b bi I hI
    omega
  have hset : countAllocUses allocId (b.set bi (setOp I oi (SILValue.arg argIdx)))
      < countAllocUses allocId b := by
    have h1 := @countAllocUses_set allocId b bi I (setOp I oi (SILValue.arg argIdx)) hI
    have h2 := @countAllocOps_set allocId I.operands oi v (SILValue.arg argIdx) hv
    rw [hva, isAllocResult_arg] at h2
    simp only [setOp] at h1 ⊢
    simp at h2
    omega
  rw [promoteStep, hI]
  by_cases h0 : I.operands[oi]? = some (SILValue.result allocId 0)
  · simp only [h0, if_pos rfl]
    simpa using herase
  · simp only [if_neg h0]
    cases hk : I.kind with
    | copyAddr loc =>
        by_cases harg : copySrc I = some (SILValue.arg argIdx)
            ∨ copyDest I = some (SILValue.arg argIdx)
        · simp only [if_pos harg]
          exact herase
        · simp only [if_neg harg]
          exact hset
    | allocStack => exact hset
    | markUninitialized => exact hset
    | otherMemOp => exact hset

/-- Running the loop for as many iterations as the allocation has uses
empties the allocation's use list. -/
theorem promoteLoopF_terminates {allocId argIdx : Nat} {fuel : Nat} {b : Body}
    (h : countAllocUses allocId b ≤ fuel) :
    countAllocUses allocId (promoteLoopF allocId argIdx fuel b) = 0 := by
  induction fuel generalizing b with
  | zero =>
      have : countAllocUses allocId b = 0 := Nat.le_zero.mp h
      simpa [promoteLoopF] using this
  | succ n ih =>
      rw [promoteLoopF]
      cases hfu : firstAllocUse allocId b with
      | none => exact firstAllocUse_eq_none.1 hfu
      | some p =>
          obtain ⟨bi, oi⟩ := p
          have hd := @promoteStep_decrease allocId argIdx b bi oi hfu
          exact ih (by omega)

/-- Erasing an element mapped to none leaves a filterMap unchanged. -/
theorem filterMap_eraseIdx_of_none {α β : Type _} {f : α → Option β} {l : List α}
    {i : Nat} {a : α} (h : l[i]? = some a) (hf : f a = none) :
    (l.eraseIdx i).filterMap f = l.filterMap f := by
  induction l generalizing i with
  | nil => simp at h
  | cons x xs ih =>
      cases i with
      | zero =>
          simp at h
          subst h
          simp [List.eraseIdx_cons_zero, List.filterMap_cons, hf]
      | succ n =>
          simp at h
          simp [List.eraseIdx_cons_succ, List.filterMap_cons, ih h]

/-- Replacing an element by one with the same image leaves a filterMap
unchanged. -/
theorem filterMap_set_of_eq {α β : Type _} {f : α → Option β} {l : List α}
    {i : Nat} {a a' : α} (h : l[i]? = some a) (hf : f a' = f a) :
    (l.set i a').filterMap f = l.filterMap f := by
  induction l generalizing i with
  | nil => simp at h
  | cons x xs ih =>
      cases i with
      | zero =>
          simp at h
          subst h
          simp [List.filterMap_cons, hf]
      | succ n =>
          simp at h
          simp [List.filterMap_cons, ih h]

/-- A filterMap fixing every element of the list is the identity. -/
theorem filterMap_eq_self_of {α : Type _} {f : α → Option α} {l : List α}
    (h : ∀ x ∈ l, f x = some x) : l.filterMap f = l := by
  induction l with
  | nil => simp
  | cons x xs ih =>
      have hx := h x (by simp)
      simp [List.filterMap_cons, hx]
      exact ih (fun y hy => h y (by simp [hy]))

/-- An instruction with an operand referencing the allocation uses it. -/
theorem usesAlloc_of_operand {allocId : Nat} {I : Instr} {oi : Nat} {v : SILValue}
    (h : I.operands[oi]? = some v) (hv : isAllocResult allocId v = true) :
    usesAlloc allocId I = true :=
  List.any_eq_true.2 ⟨v, getElem?_some_mem h, hv⟩

/-- The fate of an allocation user meeting the erasure condition. -/
theorem fate_none_of_erase {allocId argIdx : Nat} {I : Instr}
    (hu : usesAlloc allocId I = true) (he : eraseCond allocId argIdx I = true) :
    fate allocId argIdx I = none := by
  simp [fate, hu, he]

/-- An operand that is the lifecycle result witnesses a result-0 use. -/
theorem hasResult0Use_of_operand {allocId : Nat} {I : Instr} {oi : Nat}
    (h : I.operands[oi]? = some (SILValue.result allocId 0)) :
    hasResult0Use allocId I = true :=
  List.any_eq_true.2 ⟨_, getElem?_some_mem h, by simp⟩

/-- A result-0 use triggers the erasure condition. -/
theorem eraseCond_of_result0 {allocId argIdx : Nat} {I : Instr}
    (h : hasResult0Use allocId I = true) : eraseCond allocId argIdx I = true := by
  simp [eraseCond, h]

/-- A copy to or from the argument triggers the erasure condition. -/
theorem eraseCond_of_argCopy {allocId argIdx : Nat} {I : Instr} {loc : SILLoc}
    (hk : I.kind = InstKind.copyAddr loc)
    (harg : copySrc I = some (SILValue.arg argIdx) ∨ copyDest I = some (SILValue.arg argIdx)) :
    eraseCond allocId argIdx I = true := by
  rcases harg with h | h <;> simp [eraseCond, hk, h]

/-- A surviving instruction keeps its identity. -/
theorem fate_some_id {allocId argIdx : Nat} {I J : Instr}
    (h : fate allocId argIdx I = some J) : J.id = I.id := by
  unfold fate at h
  cases hu : usesAlloc allocId I <;> rw [hu] at h
  · simp at h
    subst h
    rfl
  · cases he : eraseCond allocId argIdx I <;> rw [he] at h
    · simp at h
      subst h
      rfl
    · simp at h

/-- A surviving instruction has no operand left on the allocation. -/
theorem fate_some_no_alloc_ops {allocId argIdx : Nat} {I J : Instr}
    (h : fate allocId argIdx I = some J) :
    ∀ v ∈ J.operands, isAllocResult allocId v = false := by
  unfold fate at h
  cases hu : usesAlloc allocId I <;> rw [hu] at h
  · simp at h
    subst h
    intro v hvmem
    cases hva : isAllocResult allocId v
    · rfl
    · have : usesAlloc allocId I = true := List.any_eq_true.2 ⟨v, hvmem, hva⟩
      rw [hu] at this
      cases this
  · cases he : eraseCond allocId argIdx I <;> rw [he] at h
    · simp at h
      subst h
      intro v hvmem
      rcases List.mem_map.1 hvmem with ⟨u, humem, hu2⟩
      cases hua : isAllocResult allocId u
      · rw [← hu2]
        simp [redirectVal, hua]
      · rw [← hu2]
        simp [redirectVal, hua, isAllocResult_arg]
    · simp at h

/-- Replacing an element that does not satisfy a predicate by another that
does not either leaves `any` unchanged. -/
theorem any_set_invariant {α : Type _} {p : α → Bool} {ops : List α} {oi : Nat}
    {v w : α} (h : ops[oi]? = some v) (hv : p v = false) (hw : p w = false) :
    (ops.set oi w).any p = ops.any p := by
  induction ops generalizing oi with
  | nil => simp at h
  | cons x xs ih =>
      cases oi with
      | zero =>
          simp at h
          subst h
          simp [hv, hw]
      | succ n =>
          simp at h
          simp [ih h]

/-- On an operand list free of the allocation, redirection is the
identity. -/
theorem map_redirect_id {allocId argIdx : Nat} {ops : List SILValue}
    (h : ops.any (isAllocResult allocId) = false) :
    ops.map (redirectVal allocId argIdx) = ops := by
  induction ops with
  | nil => simp
  | cons x xs ih =>
      simp only [List.any_cons, Bool.or_eq_false_iff] at h
      simp [redirectVal, h.1, ih h.2]

/-- If `p` survives nowhere else than the overwritten position, `any p`
fails on the original list for stronger predicates implied by `p`. -/
theorem any_imp_false {α : Type _} {p q : α → Bool} {l : List α}
    (himp : ∀ x, p x = true → q x = true) (h : l.any q = false) : l.any p = false := by
  cases hp : l.any p
  · rfl
  · rcases List.any_eq_true.1 hp with ⟨x, hx, hpx⟩
    have hq : l.any q = true := List.any_eq_true.2 ⟨x, hx, himp x hpx⟩
    rw [h] at hq
    cases hq

/-- When the redirected list has no allocation operand left, redirecting
the whole list equals overwriting just the processed position. -/
theorem map_redirect_eq_set {allocId argIdx : Nat} {ops : List SILValue} {oi : Nat}
    {v : SILValue} (h : ops[oi]? = some v) (hv : isAllocResult allocId v = true)
    (hrest : (ops.set oi (SILValue.arg argIdx)).any (isAllocResult allocId) = false) :
    ops.map (redirectVal allocId argIdx) = ops.set oi (SILValue.arg argIdx) := by
  induction ops generalizing oi with
  | nil => simp at h
  | cons x xs ih =>
      cases oi with
      | zero =>
          simp at h
          subst h
          simp only [List.set_cons_zero, List.any_cons, Bool.or_eq_false_iff] at hrest
          simp [redirectVal, hv, map_redirect_id hrest.2]
      | succ n =>
          simp at h
          simp only [List.set_cons_succ, List.any_cons, Bool.or_eq_false_iff] at hrest
          simp [redirectVal, hrest.1, ih h hrest.2]

/-- When the redirected list has no allocation operand left, the original
list had no lifecycle-result operand. -/
theorem any_to_result0_false {allocId argIdx : Nat} {ops : List SILValue} {oi : Nat}
    {v : SILValue} (h : ops[oi]? = some v) (hv : v ≠ SILValue.result allocId 0)
    (hrest : (ops.set oi (SILValue.arg argIdx)).any (isAllocResult allocId) = false) :
    ops.any (fun x => decide (x = SILValue.result allocId 0)) = false := by
  induction ops generalizing oi with
  | nil => simp at h
  | cons x xs ih =>
      cases oi with
      | zero =>
          simp at h
          subst h
          simp only [List.set_cons_zero, List.any_cons, Bool.or_eq_false_iff] at hrest
          simp only [List.any_cons, Bool.or_eq_false_iff]
          refine ⟨by simpa using hv, ?_⟩
          exact any_imp_false (fun x hx => by
            have : x = SILValue.result allocId 0 := by simpa using hx
            simp [this, isAllocResult]) hrest.2
      | succ n =>
          simp at h
          simp only [List.set_cons_succ, List.any_cons, Bool.or_eq_false_iff] at hrest
          simp only [List.any_cons, Bool.or_eq_false_iff]
          refine ⟨?_, ih h hrest.2⟩
          cases hx : decide (x = SILValue.result allocId 0)
          · rfl
          · have hx2 : x = SILValue.result allocId 0 := by simpa using hx
            rw [hx2, isAllocResult] at hrest
            simp at hrest

/-- For instructions other than copy_addr, the erasure condition is just
the result-0 test. -/
theorem eraseCond_noncopy {allocId argIdx : Nat} {I : Instr}
    (hkn : ∀ loc, I.kind ≠ InstKind.copyAddr loc) :
    eraseCond allocId argIdx I = hasResult0Use allocId I := by
  unfold eraseCond
  cases hIk : I.kind with
  | copyAddr loc => exact absurd hIk (hkn loc)
  | allocStack => simp
  | markUninitialized => simp
  | otherMemOp => simp

/-- Redirecting the processed use of a non-copy instruction does not
change its predicted fate. -/
theorem fate_setOp_eq_noncopy {allocId argIdx : Nat} {I : Instr} {oi : Nat} {v : SILValue}
    (hop : I.operands[oi]? = some v) (hv : isAllocResult allocId v = true)
    (hnot0 : v ≠ SILValue.result allocId 0)
    (hkn : ∀ loc, I.kind ≠ InstKind.copyAddr loc) :
    fate allocId argIdx (setOp I oi (SILValue.arg argIdx)) = fate allocId argIdx I := by
  have husesI : usesAlloc allocId I = true := usesAlloc_of_operand hop hv
  have hkn2 : ∀ loc, (setOp I oi (SILValue.arg argIdx)).kind ≠ InstKind.copyAddr loc := by
    simpa [setOp] using hkn
  have hecI := @eraseCond_noncopy allocId argIdx I hkn
  have hecI2 := @eraseCond_noncopy allocId argIdx (setOp I oi (SILValue.arg argIdx)) hkn2
  have hR0inv : hasResult0Use allocId (setOp I oi (SILValue.arg argIdx))
      = hasResult0Use allocId I := by
    unfold hasResult0Use setOp
    exact any_set_invariant hop (by simpa using hnot0) (by simp)
  cases hU : usesAlloc allocId (setOp I oi (SILValue.arg argIdx)) with
  | false =>
      have hUops : (I.operands.set oi (SILValue.arg argIdx)).any (isAllocResult allocId)
          = false := by
        simpa [usesAlloc, setOp] using hU
      have hmapset := map_redirect_eq_set hop hv hUops
      have hR0 : hasResult0Use allocId I = false := by
        unfold hasResult0Use
        exact any_to_result0_false hop hnot0 hUops
      have hecIfalse : eraseCond allocId argIdx I = false := by rw [hecI]; exact hR0
      have lhs : fate allocId argIdx (setOp I oi (SILValue.arg argIdx))
          = some (setOp I oi (SILValue.arg argIdx)) := by
        simp [fate, hU]
      have rhs : fate allocId argIdx I = some (redirectOps allocId argIdx I) := by
        simp [fate, husesI, hecIfalse]
      rw [lhs, rhs]
      unfold redirectOps setOp
      rw [hmapset]
  | true =>
      have hopm : (I.operands.map (redirectVal allocId argIdx))[oi]?
          = some (SILValue.arg argIdx) := by
        rw [List.getElem?_map, hop]
        simp [redirectVal, hv]
      have hredeq : redirectOps allocId argIdx (setOp I oi (SILValue.arg argIdx))
          = redirectOps allocId argIdx I := by
        unfold redirectOps setOp
        simp only [List.map_set]
        have : redirectVal allocId argIdx (SILValue.arg argIdx) = SILValue.arg argIdx := rfl
        rw [this]
        rw [set_eq_self_of_getElem? hopm]
      simp only [fate, hU, husesI, if_true]
      rw [hecI2, hecI, hR0inv]
      cases hR0 : hasResult0Use allocId I
      · simp [hredeq]
      · simp

/-- Redirecting the processed use to the argument never changes the
instruction's predicted fate, provided the loop body did not erase the
user: the processed operand is an allocation result other than the
lifecycle handle, and the instruction is not a copy to or from the
argument.  Copies are required to carry exactly their two operands. -/
theorem fate_setOp_eq {allocId argIdx : Nat} {I : Instr} {oi : Nat} {v : SILValue}
    (hop : I.operands[oi]? = some v)
    (hv : isAllocResult allocId v = true)
    (hnot0 : v ≠ SILValue.result allocId 0)
    (hnca : ∀ loc, I.kind = InstKind.copyAddr loc →
        ¬(copySrc I = some (SILValue.arg argIdx) ∨ copyDest I = some (SILValue.arg argIdx)))
    (harity : ∀ loc, I.kind = InstKind.copyAddr loc → I.operands.length = 2) :
    fate allocId argIdx (setOp I oi (SILValue.arg argIdx)) = fate allocId argIdx I := by
  cases hk : I.kind with
  | allocStack => exact fate_setOp_eq_noncopy hop hv hnot0 (by simp [hk])
  | markUninitialized => exact fate_setOp_eq_noncopy hop hv hnot0 (by simp [hk])
  | otherMemOp => exact fate_setOp_eq_noncopy hop hv hnot0 (by simp [hk])
  | copyAddr loc =>
      obtain ⟨a, c, hops⟩ := List.length_eq_two.1 (harity loc hk)
      have hsrc : copySrc I = some a := by simp [copySrc, hops]
      have hdst : copyDest I = some c := by simp [copyDest, hops]
      have hna : a ≠ SILValue.arg argIdx := by
        intro hEq
        exact hnca loc hk (Or.inl (by rw [hsrc, hEq]))
      have hnc : c ≠ SILValue.arg argIdx := by
        intro hEq
        exact hnca loc hk (Or.inr (by rw [hdst, hEq]))
      have hoi2 : oi < 2 := by
        have hlt := (List.getElem?_eq_some.1 hop).1
        rw [hops] at hlt
        simpa using hlt
      rw [hops] at hop
      cases oi with
      | zero =>
          simp at hop
          subst hop
          cases hc : isAllocResult allocId c
          · have hcr0 : ¬(c = SILValue.result allocId 0) := by
              intro hEq
              rw [hEq] at hc
              simp [isAllocResult] at hc
            simp [fate, usesAlloc, eraseCond, hasResult0Use, redirectOps, redirectVal,
              setOp, copySrc, copyDest, hops, hk, hc, hv, hna, hnc, hnot0, hcr0,
              isAllocResult_arg]
          · simp [fate, usesAlloc, eraseCond, hasResult0Use, redirectOps, redirectVal,
              setOp, copySrc, copyDest, hops, hk, hc, hv, hna, hnc, isAllocResult_arg]
      | succ n =>
          cases n with
          | zero =>
              simp at hop
              subst hop
              cases ha : isAllocResult allocId a
              · have har0 : ¬(a = SILValue.result allocId 0) := by
                  intro hEq
                  rw [hEq] at ha
                  simp [isAllocResult] at ha
                simp [fate, usesAlloc, eraseCond, hasResult0Use, redirectOps, redirectVal,
                  setOp, copySrc, copyDest, hops, hk, ha, hv, hna, hnc, hnot0, har0,
                  isAllocResult_arg]
              · simp [fate, usesAlloc, eraseCond, hasResult0Use, redirectOps, redirectVal,
                  setOp, copySrc, copyDest, hops, hk, ha, hv, hna, hnc, isAllocResult_arg]
          | succ m => omega

/-- Copies keep their two operands in any member of a well-formed body. -/
theorem copyArity_of_mem {b : Body} (h : copyArity b = true) {I : Instr} (hI : I ∈ b) :
    ∀ loc, I.kind = InstKind.copyAddr loc → I.operands.length = 2 := by
  intro loc hk
  have h2 := List.all_eq_true.1 h I hI
  rw [hk] at h2
  simpa using h2

/-- Erasure preserves copy arity well-formedness. -/
theorem copyArity_eraseIdx {b : Body} {i : Nat} (h : copyArity b = true) :
    copyArity (b.eraseIdx i) = true :=
  List.all_eq_true.2 (fun I hI => List.all_eq_true.1 h I (List.mem_of_mem_eraseIdx hI))

/-- Redirecting one operand preserves copy arity well-formedness. -/
theorem copyArity_set_setOp {b : Body} {bi oi : Nat} {I : Instr} {w : SILValue}
    (h : copyArity b = true) (hI : b[bi]? = some I) :
    copyArity (b.set bi (setOp I oi w)) = true := by
  apply List.all_eq_true.2
  intro J hJ
  rcases List.mem_or_eq_of_mem_set hJ with hJb | rfl
  · exact List.all_eq_true.1 h J hJb
  · have hIb := List.all_eq_true.1 h I (getElem?_some_mem hI)
    simpa [setOp] using hIb

/-- An operand referencing the allocation has positive count. -/
theorem countAllocOps_pos_of_mem {allocId : Nat} {ops : List SILValue} {v : SILValue}
    (h : v ∈ ops) (hv : isAllocResult allocId v = true) :
    0 < countAllocOps allocId ops := by
  induction ops with
  | nil => simp at h
  | cons x xs ih =>
      rcases List.mem_cons.1 h with rfl | hm
      · simp [countAllocOps, hv]
      · have := ih hm
        simp [countAllocOps]
        omega

/-- A member instruction contributes at most the total use count. -/
theorem countAllocOps_le_of_mem {allocId : Nat} {b : Body} {I : Instr} (h : I ∈ b) :
    countAllocOps allocId I.operands ≤ countAllocUses allocId b := by
  induction b with
  | nil => simp at h
  | cons x xs ih =>
      rcases List.mem_cons.1 h with rfl | hm
      · simp [countAllocUses]
      · have := ih hm
        simp [countAllocUses]
        omega

/-- On a body with no use of the allocation, no member uses it. -/
theorem usesAlloc_false_of_count_zero {allocId : Nat} {b : Body}
    (h : countAllocUses allocId b = 0) {I : Instr} (hI : I ∈ b) :
    usesAlloc allocId I = false := by
  cases hu : usesAlloc allocId I
  · rfl
  · rcases List.any_eq_true.1 hu with ⟨w, hw, hwa⟩
    have h1 := countAllocOps_pos_of_mem hw hwa
    have h2 := @countAllocOps_le_of_mem allocId b I hI
    omega

/-- One loop iteration either erases an instruction fated to be erased, or
redirects one use of an instruction whose fate is preserved. -/
theorem promoteStep_cases {allocId argIdx : Nat} {b : Body} {bi oi : Nat} {I : Instr}
    {v : SILValue} (hI : b[bi]? = some I) (hv : I.operands[oi]? = some v)
    (hva : isAllocResult allocId v = true) :
    (fate allocId argIdx I = none ∧ promoteStep allocId argIdx b bi oi = b.eraseIdx bi)
    ∨ (promoteStep allocId argIdx b bi oi = b.set bi (setOp I oi (SILValue.arg argIdx))
       ∧ v ≠ SILValue.result allocId 0
       ∧ (∀ loc, I.kind = InstKind.copyAddr loc →
            ¬(copySrc I = some (SILValue.arg argIdx)
              ∨ copyDest I = some (SILValue.arg argIdx)))) := by
  have husesI : usesAlloc allocId I = true := usesAlloc_of_operand hv hva
  simp only [promoteStep, hI]
  by_cases h0 : I.operands[oi]? = some (SILValue.result allocId 0)
  · left
    exact ⟨fate_none_of_erase husesI (eraseCond_of_result0 (hasResult0Use_of_operand h0)),
      by rw [if_pos h0]⟩
  · have hn0 : v ≠ SILValue.result allocId 0 := by
      intro hEq
      rw [hEq] at hv
      exact h0 hv
    rw [if_neg h0]
    cases hk : I.kind with
    | copyAddr loc =>
        by_cases harg : copySrc I = some (SILValue.arg argIdx)
            ∨ copyDest I = some (SILValue.arg argIdx)
        · left
          exact ⟨fate_none_of_erase husesI (eraseCond_of_argCopy hk harg), by simp [harg]⟩
        · right
          exact ⟨by simp [harg], hn0, fun loc2 _ => harg⟩
    | allocStack =>
        right
        refine ⟨by simp, hn0, ?_⟩
        intro loc2 hk2
        simp at hk2
    | markUninitialized =>
        right
        refine ⟨by simp, hn0, ?_⟩
        intro loc2 hk2
        simp at hk2
    | otherMemOp =>
        right
        refine ⟨by simp, hn0, ?_⟩
        intro loc2 hk2
        simp at hk2

/-- Master theorem for the promoter's loop: with enough iterations (the
allocation's use count suffices), the loop rewrites the body pointwise to
each instruction's predicted fate — erased, redirected, or untouched. -/
theorem promoteLoopF_eq_filterMap {allocId argIdx : Nat} {fuel : Nat} {b : Body}
    (hcp : copyArity b = true) (hfuel : countAllocUses allocId b ≤ fuel) :
    promoteLoopF allocId argIdx fuel b = b.filterMap (fate allocId argIdx) := by
  induction fuel generalizing b with
  | zero =>
      have h0 : countAllocUses allocId b = 0 := Nat.le_zero.mp hfuel
      rw [promoteLoopF]
      symm
      exact filterMap_eq_self_of (fun I hI => by
        simp [fate, usesAlloc_false_of_count_zero h0 hI])
  | succ n ih =>
      rw [promoteLoopF]
      cases hfu : firstAllocUse allocId b with
      | none =>
          have h0 : countAllocUses allocId b = 0 := firstAllocUse_eq_none.1 hfu
          symm
          exact filterMap_eq_self_of (fun I hI => by
            simp [fate, usesAlloc_false_of_count_zero h0 hI])
      | some p =>
          obtain ⟨bi, oi⟩ := p
          show promoteLoopF allocId argIdx n (promoteStep allocId argIdx b bi oi)
            = b.filterMap (fate allocId argIdx)
          rcases firstAllocUse_eq_some hfu with ⟨I, v, hI, hv, hva⟩
          have hdec := @promoteStep_decrease allocId argIdx b bi oi hfu
          have hle : countAllocUses allocId (promoteStep allocId argIdx b bi oi) ≤ n := by
            omega
          rcases @promoteStep_cases allocId argIdx b bi oi I v hI hv hva with
            ⟨hfn, hstep⟩ | ⟨hstep, hn0, hnca⟩
          · rw [hstep] at hle ⊢
            rw [ih (copyArity_eraseIdx hcp) hle]
            exact filterMap_eraseIdx_of_none hI hfn
          · rw [hstep] at hle ⊢
            rw [ih (copyArity_set_setOp hcp hI) hle]
            exact filterMap_set_of_eq hI
              (fate_setOp_eq hv hva hn0 hnca
                (copyArity_of_mem hcp (getElem?_some_mem hI)))

/-- promoteShadow in closed form: apply each instruction's fate, then drop
the allocation instruction itself. -/
theorem promoteShadow_eq {allocId argIdx : Nat} {b : Body} (hcp : copyArity b = true) :
    promoteShadow b allocId argIdx
      = (b.filterMap (fate allocId argIdx)).filter (fun I => I.id != allocId) := by
  unfold promoteShadow eraseById
  rw [promoteLoopF_eq_filterMap hcp le_rfl]

/-- Membership in the promoted body. -/
theorem mem_promoteShadow_iff {allocId argIdx : Nat} {b : Body} {J : Instr}
    (hcp : copyArity b = true) :
    J ∈ promoteShadow b allocId argIdx
      ↔ J.id ≠ allocId ∧ ∃ I, I ∈ b ∧ fate allocId argIdx I = some J := by
  rw [promoteShadow_eq hcp, List.mem_filter, List.mem_filterMap]
  constructor
  · rintro ⟨⟨I, hI, hf⟩, hid⟩
    exact ⟨by simpa using hid, I, hI, hf⟩
  · rintro ⟨hid, I, hI, hf⟩
    exact ⟨⟨I, hI, hf⟩, by simpa using hid⟩

/-- An instruction whose fate is erasure leaves no instruction with its
identity in the promoted body (identities are unique). -/
theorem id_not_mem_promoteShadow {allocId argIdx : Nat} {b : Body} {I : Instr}
    (hcp : copyArity b = true) (hnd : (b.map Instr.id).Nodup)
    (hmem : I ∈ b) (hf : fate allocId argIdx I = none) :
    I.id ∉ (promoteShadow b allocId argIdx).map Instr.id := by
  intro hin
  rcases List.mem_map.1 hin with ⟨J, hJ, hid⟩
  rcases (mem_promoteShadow_iff hcp).1 hJ with ⟨_, I0, hI0, hf0⟩
  have hJid : J.id = I0.id := fate_some_id hf0
  have hII : I0 = I := List.inj_on_of_nodup_map hnd hI0 hmem (by rw [← hJid, hid])
  rw [hII, hf] at hf0
  cases hf0

/-- findSome? returns the image of the first element with a defined
image. -/
theorem findSome?_eq_of_first {α β : Type _} {f : α → Option β} {l : List α} {k : Nat}
    {u : α} {a : β} (hk : l[k]? = some u) (hu : f u = some a)
    (hbefore : ∀ j, j < k → ∀ u2, l[j]? = some u2 → f u2 = none) :
    l.findSome? f = some a := by
  induction l generalizing k with
  | nil => simp at hk
  | cons x xs ih =>
      cases k with
      | zero =>
          simp at hk
          subst hk
          simp [List.findSome?_cons, hu]
      | succ n =>
          have hx : f x = none := hbefore 0 (Nat.succ_pos n) x (by simp)
          simp at hk
          rw [List.findSome?_cons, hx]
          exact ih hk (fun j hj u2 hu2 =>
            hbefore (j + 1) (by omega) u2 (by simpa using hu2))

/-- The driver's counters are each incremented exactly once per inout
parameter: removed counts the true outcomes, kept the false ones. -/
theorem processParams_counters {b : Body} {params : List Bool} {argIdx : Nat} :
    (processParams b params argIdx).2.1 = (promotionOutcomes b params argIdx).count true
    ∧ (processParams b params argIdx).2.2 = (promotionOutcomes b params argIdx).count false
    ∧ (promotionOutcomes b params argIdx).length = params.count true := by
  induction params generalizing b argIdx with
  | nil => simp [processParams, promotionOutcomes]
  | cons p rest ih =>
      cases p with
      | false =>
          have ihb := @ih b (argIdx + 1)
          simp only [processParams, promotionOutcomes, if_neg Bool.false_ne_true]
          simpa [List.count_cons] using ihb
      | true =>
          have ihb := @ih (processInOutValue b argIdx).2 (argIdx + 1)
          cases hpr : (processInOutValue b argIdx).1 with
          | false =>
              simp only [processParams, promotionOutcomes, if_pos rfl, hpr]
              simp [List.count_cons, ihb.1, ihb.2.1, ihb.2.2]
          | true =>
              simp only [processParams, promotionOutcomes, if_pos rfl, hpr]
              simp [List.count_cons, ihb.1, ihb.2.1, ihb.2.2]

/-- When no inout parameter's scan finds a shadow, the driver's parameter
loop leaves the body untouched. -/
theorem processParams_noop {b : Body} {params : List Bool} {argIdx : Nat}
    (h : ∀ j, params[j]? = some true → findShadow b (argIdx + j) = none) :
    (processParams b params argIdx).1 = b := by
  induction params generalizing argIdx with
  | nil => simp [processParams]
  | cons p rest ih =>
      cases p with
      | false =>
          simp only [processParams, if_neg Bool.false_ne_true]
          exact ih (fun j hj => by
            have hsh := h (j + 1) (by simpa using hj)
            have h2 : argIdx + 1 + j = argIdx + (j + 1) := by omega
            rw [h2]
            exact hsh)
      | true =>
          have h0 : findShadow b argIdx = none := by
            have := h 0 (by simp)
            simpa using this
          simp only [processParams, if_pos rfl, processInOutValue, h0]
          exact ih (fun j hj => by
            have hsh := h (j + 1) (by simpa using hj)
            have h2 : argIdx + 1 + j = argIdx + (j + 1) := by omega
            rw [h2]
            exact hsh)

/-- C5: for every inout argument on which the recognizer matches no use,
per-parameter processing returns false and performs no mutation — the body
(hence its instruction count and every instruction's operand list) is
exactly as received. -/
theorem processInOutValue_no_match_no_mutation (b : Body) (argIdx : Nat)
    (h : findShadow b argIdx = none) :
    processInOutValue b argIdx = (false, b) := by
  simp [processInOutValue, h]

/-- Witness for C5 on Scenario B: the user-written copy is not recognized
and processing keeps the body word for word. -/
theorem processInOutValue_no_match_no_mutation_witness :
    findShadow userCopyBody 0 = none
    ∧ processInOutValue userCopyBody 0 = (false, userCopyBody) :=
  ⟨by decide, processInOutValue_no_match_no_mutation userCopyBody 0 (by decide)⟩

/-- C6: per-parameter processing scans the argument's use list in
use-list order; at the first use the recognizer matches it promotes the
returned allocation and reports true — the result is determined by that
first match alone, so at most one shadow is promoted per parameter per
run. -/
theorem processInOutValue_first_match (b : Body) (argIdx k a : Nat) (u : Instr × Nat)
    (hk : (argUses argIdx b)[k]? = some u)
    (hu : isCopyToOrFromStack b u.1 u.2 = some a)
    (hbefore : ∀ j, j < k → ∀ u2, (argUses argIdx b)[j]? = some u2 →
        isCopyToOrFromStack b u2.1 u2.2 = none) :
    processInOutValue b argIdx = (true, promoteShadow b a argIdx) := by
  have hfs : findShadow b argIdx = some a :=
    findSome?_eq_of_first hk hu hbefore
  simp [processInOutValue, hfs]

/-- Witness for C6 on Scenario D: the copy-in is the first use of the
argument and its allocation is the one promoted. -/
theorem processInOutValue_first_match_witness :
    processInOutValue shadowBodyD 0 = (true, promoteShadow shadowBodyD 0 0) :=
  processInOutValue_first_match shadowBodyD 0 0 0
    (⟨1, InstKind.copyAddr autoLoc, [SILValue.arg 0, SILValue.result 0 1]⟩, 0)
    (by decide) (by decide)
    (fun j hj u2 _ => absurd hj (Nat.not_lt_zero j))

/-- For a list of booleans the true count and false count partition the
length. -/
theorem count_true_add_count_false {l : List Bool} :
    l.count true + l.count false = l.length := by
  induction l with
  | nil => simp
  | cons x xs ih =>
      cases x <;> simp [List.count_cons] <;> omega

/-- C7: over one driver run, the removed counter rises by the number of
promoted inout parameters and the kept counter by the number of inout
parameters left alone; each processed inout parameter bumps exactly one of
the two, so the deltas sum to the number of inout parameters. -/
theorem counters_count_promotions (b : Body) (params : List Bool) (argIdx : Nat) :
    (processParams b params argIdx).2.1
        = (promotionOutcomes b params argIdx).count true
    ∧ (processParams b params argIdx).2.2
        = (promotionOutcomes b params argIdx).count false
    ∧ (promotionOutcomes b params argIdx).count true
        + (promotionOutcomes b params argIdx).count false
        = params.count true := by
  rcases @processParams_counters b params argIdx with ⟨h1, h2, h3⟩
  refine ⟨h1, h2, ?_⟩
  rw [← h3]
  exact count_true_add_count_false

/-- C9: the promoter's loop always terminates: each iteration strictly
shrinks the allocation's use list, so a budget of as many iterations as
the allocation has uses reaches the loop's exit condition — no use of
the allocation remains. -/
theorem promoter_loop_terminates_within_use_count (allocId argIdx fuel : Nat) (b : Body)
    (h : countAllocUses allocId b ≤ fuel) :
    countAllocUses allocId (promoteLoopF allocId argIdx fuel b) = 0
    ∧ firstAllocUse allocId (promoteLoopF allocId argIdx fuel b) = none
    ∧ ∀ bi oi, firstAllocUse allocId b = some (bi, oi) →
        countAllocUses allocId (promoteStep allocId argIdx b bi oi)
          < countAllocUses allocId b := by
  have h0 := @promoteLoopF_terminates allocId argIdx fuel b h
  exact ⟨h0, firstAllocUse_eq_none.2 h0, fun bi oi hfu => promoteStep_decrease hfu⟩

/-- Witness for C9 on Scenario D: four uses, and the loop is done within
four iterations; the first step processes the copy-in's shadow operand
and shrinks the use count. -/
theorem promoter_loop_terminates_within_use_count_witness :
    countAllocUses 0 (promoteLoopF 0 0 4 shadowBodyD) = 0
    ∧ countAllocUses 0 (promoteStep 0 0 shadowBodyD 1 1) < countAllocUses 0 shadowBodyD :=
  ⟨(promoter_loop_terminates_within_use_count 0 0 4 shadowBodyD (by decide)).1,
   (promoter_loop_terminates_within_use_count 0 0 4 shadowBodyD (by decide)).2.2 1 1
     (by decide)⟩

/-- Characterization of the modelled value-to-alloc_stack cast. -/
theorem asAllocStackAddr_eq_some {b : Body} {v : SILValue} {j : Nat} :
    asAllocStackAddr b v = some j
      ↔ v = SILValue.result j 1 ∧ isAllocStackIn b j = true := by
  cases v with
  | arg n => simp [asAllocStackAddr]
  | result i r =>
      cases r with
      | zero => simp [asAllocStackAddr]
      | succ r2 =>
          cases r2 with
          | zero =>
              by_cases hA : isAllocStackIn b i = true
              · simp only [asAllocStackAddr, if_pos hA]
                constructor
                · intro hEq
                  have : i = j := by simpa using hEq
                  subst this
                  exact ⟨rfl, hA⟩
                · rintro ⟨h1, _⟩
                  have : i = j := by
                    have := congrArg (fun w => match w with
                      | SILValue.result m _ => m
                      | SILValue.arg m => m) h1
                    simpa using this
                  simp [this]
              · simp only [asAllocStackAddr, if_neg hA]
                constructor
                · intro hEq
                  cases hEq
                · rintro ⟨h1, h2⟩
                  have : i = j := by
                    have := congrArg (fun w => match w with
                      | SILValue.result m _ => m
                      | SILValue.arg m => m) h1
                    simpa using this
                  subst this
                  exact absurd h2 hA
          | succ r3 => simp [asAllocStackAddr]

/-- C3: for a use of an inout argument, the recognizer returns the
alloc_stack `j` exactly when the user is a memory copy passing the
provenance gate whose other operand, after looking through one
mark_uninitialized layer, is precisely the address result of the
alloc_stack `j`; in every other case it returns no match.  The query is a
pure function of the body and never mutates it. -/
theorem isCopyToOrFromStack_characterization (b : Body) (I : Instr) (oi j argIdx : Nat)
    (_huse : I.operands[oi]? = some (SILValue.arg argIdx)) :
    isCopyToOrFromStack b I oi = some j ↔
      (∃ loc, I.kind = InstKind.copyAddr loc
          ∧ (loc.isAutoGenerated = true ∨ loc.isSILFileLocation = true))
      ∧ (∃ w, otherOperand I oi = some w
          ∧ lookThroughMUI b w = SILValue.result j 1
          ∧ isAllocStackIn b j = true) := by
  unfold isCopyToOrFromStack
  cases hk : I.kind with
  | allocStack => simp
  | markUninitialized => simp
  | otherMemOp => simp
  | copyAddr loc =>
      cases hg : loc.isAutoGenerated with
      | false =>
          cases hf : loc.isSILFileLocation with
          | false => simp [hg, hf]
          | true =>
              simp only [hg, hf, Bool.not_false, Bool.not_true, Bool.and_false,
                Bool.false_and, if_neg Bool.false_ne_true]
              cases hoo : otherOperand I oi with
              | none => simp
              | some w => simp [asAllocStackAddr_eq_some, hg, hf]
      | true =>
          simp only [hg, Bool.not_true, Bool.false_and, if_neg Bool.false_ne_true]
          cases hoo : otherOperand I oi with
          | none => simp
          | some w => simp [asAllocStackAddr_eq_some, hg]

/-- Witness for C3 on Scenario C: the copy through the mark_uninitialized
wrapper is recognized, with the recognizer applied through the
characterization's backward direction. -/
theorem isCopyToOrFromStack_characterization_witness :
    isCopyToOrFromStack muiBody muiCopy 0 = some 0 :=
  (isCopyToOrFromStack_characterization muiBody muiCopy 0 0 0 (by decide)).2
    ⟨⟨autoLoc, rfl, Or.inl rfl⟩, ⟨SILValue.result 5 0, rfl, by decide, by decide⟩⟩

/-- C2 counterexample: a full run of the pass on a function whose shadow
copy is file-located but NOT provenance-tagged autogenerated still
triggers promotion from that copy and erases it (the body ends empty and
the removed counter is bumped), because the gate also accepts file-level
synthesized locations — refuting the claim that a copy not tagged
autogenerated is never erased nor used to trigger promotion. -/
theorem nonAutogenerated_copy_promoted_counterexample :
    performInOutDeshadowing [fileLocFn]
      = ([{ body := some [], params := [true] }], 1, 0) := by decide

/-- C2 (amended): a memory copy that is neither provenance-tagged
autogenerated nor attributed to a file-level synthesized location is never
used to trigger promotion — the recognizer only ever matches a copy
passing the gate.  (Erasure is not so gated: a promotion triggered by a
different copy erases any copy between the shadow and the argument
whatever its provenance.) -/
theorem recognizer_requires_provenance_gate (b : Body) (I : Instr) (oi j : Nat)
    (h : isCopyToOrFromStack b I oi = some j) : gatePasses I = true := by
  unfold isCopyToOrFromStack at h
  cases hk : I.kind with
  | allocStack => rw [hk] at h; cases h
  | markUninitialized => rw [hk] at h; cases h
  | otherMemOp => rw [hk] at h; cases h
  | copyAddr loc =>
      rw [hk] at h
      cases hg : loc.isAutoGenerated with
      | true => simp [gatePasses, hk, hg]
      | false =>
          cases hf : loc.isSILFileLocation with
          | true => simp [gatePasses, hk, hg, hf]
          | false =>
              simp [hg, hf] at h

/-- Witness for C2's amended theorem: the autogenerated copy-in of
Scenario D is recognized, and indeed passes the gate. -/
theorem recognizer_requires_provenance_gate_witness :
    gatePasses ⟨1, InstKind.copyAddr autoLoc, [SILValue.arg 0, SILValue.result 0 1]⟩
      = true :=
  recognizer_requires_provenance_gate shadowBodyD
    ⟨1, InstKind.copyAddr autoLoc, [SILValue.arg 0, SILValue.result 0 1]⟩ 0 0 (by decide)

/-- C4 counterexample: on a body-less declaration the module driver skips
the function (identity, zero counter deltas), but the transform-unit entry
point does not skip it — it dereferences the entry block unconditionally,
an access with no defined result, modelled as `none`.  The claim that a
declaration "is skipped entirely by both" is refuted. -/
theorem runOnFunction_declaration_not_skipped :
    performInOutDeshadowingFn declOnlyFn = (declOnlyFn, 0, 0)
    ∧ runOnFunction declOnlyFn = none :=
  ⟨rfl, rfl⟩

/-- C4 (amended): on every function with a body the two entry points
perform the same per-parameter processing (identical parameter loops); the
module driver alone checks for and skips a body-less declaration, while
the transform-unit entry point assumes a non-empty function. -/
theorem entry_points_agree_on_bodied_functions (f : SILFunction) :
    (∀ b, f.body = some b → runOnFunction f = some (performInOutDeshadowingFn f))
    ∧ (f.body = none → performInOutDeshadowingFn f = (f, 0, 0) ∧ runOnFunction f = none) := by
  constructor
  · intro b hb
    simp [runOnFunction, performInOutDeshadowingFn, hb]
  · intro hb
    simp [runOnFunction, performInOutDeshadowingFn, hb]

/-- Witness for C4's amended theorem at Scenario D's function. -/
theorem entry_points_agree_on_bodied_functions_witness :
    runOnFunction shadowFnD = some (performInOutDeshadowingFn shadowFnD) :=
  (entry_points_agree_on_bodied_functions shadowFnD).1 shadowBodyD rfl

/-- C8 counterexample: a parameter with two recognizable shadows.  One run
promotes only the first (per-parameter processing stops at the first
match), so a second run still finds and promotes the second shadow: the
twice-processed function differs from the once-processed one, refuting
unconditional idempotence. -/
theorem pass_not_idempotent_two_shadows :
    (performInOutDeshadowingFn (performInOutDeshadowingFn twoShadowFn).1).1
      ≠ (performInOutDeshadowingFn twoShadowFn).1 := by decide

/-- C8 (amended): running the pass twice yields the same function as
running it once for every function whose once-processed body has no use
of an inout argument left that the recognizer matches; in general (such as
with several shadows per parameter) a second run can promote further. -/
theorem second_run_noop_when_no_shadow_remains (f : SILFunction)
    (h : ∀ b1, (performInOutDeshadowingFn f).1.body = some b1 →
        ∀ j, f.params[j]? = some true → findShadow b1 j = none) :
    (performInOutDeshadowingFn (performInOutDeshadowingFn f).1).1
      = (performInOutDeshadowingFn f).1 := by
  cases hb : f.body with
  | none => simp [performInOutDeshadowingFn, hb]
  | some b =>
      have h1 := h (processParams b f.params 0).1
        (by simp [performInOutDeshadowingFn, hb])
      have h2 : (processParams (processParams b f.params 0).1 f.params 0).1
          = (processParams b f.params 0).1 :=
        processParams_noop (fun j hj => by simpa using h1 j hj)
      simp [performInOutDeshadowingFn, hb, h2]

/-- Witness for C8's amended theorem: after promoting Scenario D's shadow
nothing recognizable remains, and a second run is the identity. -/
theorem second_run_noop_when_no_shadow_remains_witness :
    (performInOutDeshadowingFn (performInOutDeshadowingFn shadowFnD).1).1
      = (performInOutDeshadowingFn shadowFnD).1 :=
  second_run_noop_when_no_shadow_remains shadowFnD (by
    intro b1 hb1 j hj
    have hb : (performInOutDeshadowingFn shadowFnD).1.body
        = some [⟨2, InstKind.otherMemOp, [SILValue.arg 0]⟩] := by decide
    rw [hb] at hb1
    injection hb1 with hb2
    subst hb2
    cases j with
    | zero => decide
    | succ n => simp [shadowFnD] at hj)

/-- C1 counterexample: an autogenerated copy both of whose operands are
the shadow's address satisfies the claim's precondition as an "other
memory operation" use of the allocation (it is not a copy to or from the
argument), so the claim predicts it survives with its operands redirected
to the argument.  The promoter instead redirects its first operand and
then erases it — the first redirect makes the src-or-dest-is-the-argument
test fire — leaving an empty body. -/
theorem promoteShadow_allocAllocCopy_erased :
    promoteShadow allocAllocBody 0 0 = [] := by decide

/-- C1 (amended): after `promoteShadow` on a body with well-formed copies
and distinct identities: the allocation is gone; no operand anywhere
references either of its results; every lifecycle (result-0) user, every
copy to or from the argument, and additionally every copy both of whose
operands come from the allocation, is erased; every other former user
survives with exactly its allocation operands redirected to the argument
and is otherwise unmodified; instructions that never used the allocation
are untouched. -/
theorem promoteShadow_graph_wellformed (b : Body) (allocId argIdx : Nat)
    (hcp : copyArity b = true) (hnd : (b.map Instr.id).Nodup) :
    (∀ J, J ∈ promoteShadow b allocId argIdx → J.id ≠ allocId)
    ∧ (∀ J, J ∈ promoteShadow b allocId argIdx → ∀ v, v ∈ J.operands →
        isAllocResult allocId v = false)
    ∧ (∀ I, I ∈ b → usesAlloc allocId I = true → eraseCond allocId argIdx I = true →
        I.id ∉ (promoteShadow b allocId argIdx).map Instr.id)
    ∧ (∀ I, I ∈ b → usesAlloc allocId I = true → eraseCond allocId argIdx I = false →
        I.id ≠ allocId → redirectOps allocId argIdx I ∈ promoteShadow b allocId argIdx)
    ∧ (∀ I, I ∈ b → usesAlloc allocId I = false → I.id ≠ allocId →
        I ∈ promoteShadow b allocId argIdx) := by
  refine ⟨?_, ?_, ?_, ?_, ?_⟩
  · intro J hJ
    exact ((mem_promoteShadow_iff hcp).1 hJ).1
  · intro J hJ
    rcases (mem_promoteShadow_iff hcp).1 hJ with ⟨_, I, _, hf⟩
    exact fun v hv => fate_some_no_alloc_ops hf v hv
  · intro I hI hu he
    exact id_not_mem_promoteShadow hcp hnd hI (fate_none_of_erase hu he)
  · intro I hI hu he hid
    apply (mem_promoteShadow_iff hcp).2
    refine ⟨by simpa [redirectOps] using hid, I, hI, ?_⟩
    simp [fate, hu, he]
  · intro I hI hu hid
    apply (mem_promoteShadow_iff hcp).2
    exact ⟨hid, I, hI, by simp [fate, hu]⟩

/-- Witness for C1's amended theorem on Scenario D: the unrelated memory
operation survives promotion with its operand redirected to the
argument. -/
theorem promoteShadow_graph_wellformed_witness :
    copyArity shadowBodyD = true
    ∧ (shadowBodyD.map Instr.id).Nodup
    ∧ redirectOps 0 0 shadowDLoad ∈ promoteShadow shadowBodyD 0 0 :=
  ⟨by decide, by decide,
   (promoteShadow_graph_wellformed shadowBodyD 0 0 (by decide) (by decide)).2.2.2.1
     shadowDLoad (by decide) (by decide) (by decide) (by decide)⟩

/-- C10: once promotion is triggered, the promoter erases every memory
copy between the allocation and the inout argument — any copy using the
allocation whose source or destination is the argument — without
re-checking its provenance tag: the location `loc` here is arbitrary, so
a copy that is not autogenerated is erased all the same. -/
theorem promoter_erases_arg_copies_ignoring_provenance (b : Body) (allocId argIdx : Nat)
    (I : Instr) (loc : SILLoc)
    (hcp : copyArity b = true) (hnd : (b.map Instr.id).Nodup)
    (hmem : I ∈ b) (hk : I.kind = InstKind.copyAddr loc)
    (huse : usesAlloc allocId I = true)
    (harg : copySrc I = some (SILValue.arg argIdx)
        ∨ copyDest I = some (SILValue.arg argIdx)) :
    I.id ∉ (promoteShadow b allocId argIdx).map Instr.id :=
  id_not_mem_promoteShadow hcp hnd hmem
    (fate_none_of_erase huse (eraseCond_of_argCopy hk harg))

/-- Witness for C10: the user-written (not autogenerated) copy-out of
`mixedProvenanceBody` is erased by the promotion its autogenerated
copy-in triggered. -/
theorem promoter_erases_arg_copies_ignoring_provenance_witness :
    mixedUserCopy.id ∉ (promoteShadow mixedProvenanceBody 0 0).map Instr.id :=
  promoter_erases_arg_copies_ignoring_provenance mixedProvenanceBody 0 0
    mixedUserCopy userLoc (by decide) (by decide) (by decide) rfl (by decide)
    (Or.inr rfl)
